import Mathlib

/-!
# Verification of the data-synthesizer panel pipeline

Shallow embedding of the panel-preparation and regression code of the
repository (CORRECTED_ANALYSIS.py, fix_data_and_run_analysis.py,
preliminary_analysis.py), with theorems settling the spec claims.

Float cells of a pandas column are modelled by `FVal`: a rational-valued
finite number, NaN, or a signed infinity, with numpy/IEEE-754 special-value
rules (warnings are suppressed in the scripts, so special values propagate
silently). Rounding of finite arithmetic is not modelled: every claim here
concerns missing/infinite propagation and exact rational identities, not
floating-point error. Signed zero is not modelled; the scripts never
produce a negative zero on the paths the claims touch.

Source column names are kept where Lean's and this project's naming rules
allow; otherwise a comment at each field records the pandas column it embeds.
-/

set_option maxHeartbeats 1000000

namespace DataSynth

open Matrix

/-- One cell of a pandas float column: a finite (rational-valued) number,
the missing marker NaN, or a signed infinity. -/
inductive FVal where
  | num (q : ℚ)
  | nan
  | pinf
  | ninf
deriving DecidableEq, Repr, Inhabited

namespace FVal

/-- True exactly on the missing marker; `dropna` drops NaN but keeps infinities
(pandas default, `mode.use_inf_as_na` is off). -/
def isna : FVal → Bool
  | nan => true
  | _ => false

/-- numpy float division, as used for the ratio columns
(`OIBDP / AT_lag1`, `NET_INCOME / TOTAL_ASSETS`, `TOTAL_DEBT / TOTAL_ASSETS`):
NaN propagates, a nonzero number over zero is a signed infinity, zero over
zero is NaN, and infinities follow IEEE-754. -/
def fdiv : FVal → FVal → FVal
  | nan, _ => nan
  | _, nan => nan
  | num a, num b =>
      if b = 0 then (if a = 0 then nan else if 0 < a then pinf else ninf)
      else num (a / b)
  | num _, pinf => num 0
  | num _, ninf => num 0
  | pinf, num b => if 0 ≤ b then pinf else ninf
  | ninf, num b => if 0 ≤ b then ninf else pinf
  | pinf, pinf => nan
  | pinf, ninf => nan
  | ninf, pinf => nan
  | ninf, ninf => nan

/-- numpy float addition (used for `TOTAL_ASSETS + 1`): NaN propagates,
opposite infinities give NaN. -/
def fadd : FVal → FVal → FVal
  | nan, _ => nan
  | _, nan => nan
  | num a, num b => num (a + b)
  | num _, pinf => pinf
  | num _, ninf => ninf
  | pinf, num _ => pinf
  | ninf, num _ => ninf
  | pinf, pinf => pinf
  | ninf, ninf => ninf
  | pinf, ninf => nan
  | ninf, pinf => nan

/-- numpy float multiplication (used for the `interaction` column): NaN
propagates, infinity times zero is NaN, otherwise signs follow IEEE-754. -/
def fmul : FVal → FVal → FVal
  | nan, _ => nan
  | _, nan => nan
  | num a, num b => num (a * b)
  | num a, pinf => if a = 0 then nan else if 0 < a then pinf else ninf
  | num a, ninf => if a = 0 then nan else if 0 < a then ninf else pinf
  | pinf, num b => if b = 0 then nan else if 0 < b then pinf else ninf
  | ninf, num b => if b = 0 then nan else if 0 < b then ninf else pinf
  | pinf, pinf => pinf
  | pinf, ninf => ninf
  | ninf, pinf => ninf
  | ninf, ninf => pinf

end FVal

/-- pandas `Series.shift k` on the values of one group: the first `k` cells
become NaN and the remaining cells are the original values moved down by `k`
(the tail of the original list is cut off so the length is preserved). -/
def shiftList (k : ℕ) (xs : List FVal) : List FVal :=
  (List.replicate k FVal.nan ++ xs).take xs.length

/-- pandas `df.groupby(key)[col].shift(k)` on `rows` in dataframe order:
the cell at row `i` is the shifted-by-`k` value of the key-group of row `i`,
taken at row `i`'s position inside its group (the number of earlier rows
with the same key). -/
def groupShift {α : Type} (k : ℕ) (key : α → ℕ) (col : α → FVal)
    (rows : List α) : List FVal :=
  rows.enum.map fun ir =>
    (shiftList k ((rows.filter fun s => key s == key ir.2).map col)).getD
      (((rows.take ir.1).filter fun s => key s == key ir.2).length) FVal.nan

/-- The column values at the rows before row `i` that share the entity key `e`:
the prior observations for that entity, in order. -/
def priorObs {α : Type} (key : α → ℕ) (col : α → FVal) (rows : List α)
    (i : ℕ) (e : ℕ) : List FVal :=
  ((rows.take i).filter fun s => key s == e).map col

/-- The panel sort key order used by `sort_values(['PERMNO', 'YEAR'])`:
lexicographic on (entity id, period). -/
def keyLe (a b : ℕ × ℤ) : Prop :=
  a.1 < b.1 ∨ (a.1 = b.1 ∧ a.2 ≤ b.2)

instance : DecidableRel keyLe := fun a b => by
  unfold keyLe; infer_instance

/-- Strict version of the panel sort key order. -/
def keyLt (a b : ℕ × ℤ) : Prop :=
  a.1 < b.1 ∨ (a.1 = b.1 ∧ a.2 < b.2)

/-- `df.sort_values(['PERMNO', 'YEAR'])`: sort the rows by (entity, period).
Embedded as an insertion sort; on panels whose (entity, period) keys are
unique — the data-model invariant — every comparison sort produces the same
row sequence, so the choice of algorithm is immaterial. -/
def sortPanel {α : Type} (key : α → ℕ × ℤ) (rows : List α) : List α :=
  rows.insertionSort fun a b => keyLe (key a) (key b)

/-! ## CORRECTED_ANALYSIS.py: panel preparation (lines 96-159) -/

/-- A raw row of the CORRECTED_ANALYSIS panel. `state` embeds the STATE label
as an opaque code. Column names: `affected` = AFFECTED_RATIO,
`assets` = TOTAL_ASSETS, `netIncome` = NET_INCOME, `debt` = TOTAL_DEBT. -/
structure PRow where
  permno : ℕ
  year : ℤ
  affected : FVal
  assets : FVal
  netIncome : FVal
  debt : FVal
  oibdp : FVal
  state : ℕ
deriving DecidableEq, Repr, Inhabited

/-- Sort key of a CORRECTED_ANALYSIS row. -/
def PRow.key (r : PRow) : ℕ × ℤ := (r.permno, r.year)

/-- Whether `np.log(TOTAL_ASSETS.replace(0, np.nan))` (line 140) is NaN for a
given TOTAL_ASSETS cell: zero is first replaced by NaN, and numpy log of a
negative number or NaN is NaN (log of +inf is +inf, of -inf is NaN). The
finite value itself is transcendental and is carried by `logAssetsCorrected`
below; only NaN-ness enters the `dropna` filter. -/
def logNAcorrected : FVal → Bool
  | .num a => decide (a ≤ 0)
  | .nan => true
  | .pinf => false
  | .ninf => true

/-- A prepared row of CORRECTED_ANALYSIS: the raw row plus the derived columns
of lines 100-141. `lag1` = AFFECTED_RATIO_lag1, `atLag1` = AT_lag1,
`lag2` = AFFECTED_RATIO_lag2, `roaHsu` = ROA_HSU, `roaOrig` = ROA_ORIGINAL,
`logNA` = NaN-ness of LOG_ASSETS, `leverage` = LEVERAGE. -/
structure CRow where
  base : PRow
  lag1 : FVal
  atLag1 : FVal
  lag2 : FVal
  roaHsu : FVal
  roaOrig : FVal
  logNA : Bool
  leverage : FVal
deriving DecidableEq, Repr, Inhabited

/-- CORRECTED_ANALYSIS lines 100-141 applied to an already sorted panel:
build the grouped lag columns, then the ratio, log and leverage columns. -/
def prepareSorted (d : List PRow) : List CRow :=
  let l1 := groupShift 1 PRow.permno PRow.affected d
  let a1 := groupShift 1 PRow.permno PRow.assets d
  let l2 := groupShift 2 PRow.permno PRow.affected d
  (List.range d.length).map fun i =>
    let r := d.getD i default
    { base := r
      lag1 := l1.getD i FVal.nan
      atLag1 := a1.getD i FVal.nan
      lag2 := l2.getD i FVal.nan
      roaHsu := FVal.fdiv r.oibdp (a1.getD i FVal.nan)
      roaOrig := FVal.fdiv r.netIncome r.assets
      logNA := logNAcorrected r.assets
      leverage := FVal.fdiv r.debt r.assets }

/-- CORRECTED_ANALYSIS lines 96-141: sort by (PERMNO, YEAR) first, then build
the derived columns. -/
def prepare (raw : List PRow) : List CRow :=
  prepareSorted (sortPanel PRow.key raw)

/-- The regression variables of CORRECTED_ANALYSIS line 156 (`reg_vars`). -/
inductive RegCol where
  | permno
  | year
  | state
  | roaHsu
  | lag1
  | lag2
  | logAssets
  | leverage
deriving DecidableEq, Repr

/-- Whether a prepared row is missing (NaN) in a given variable. The integer
key columns PERMNO, YEAR and the STATE label are never missing. -/
def colNA (c : CRow) : RegCol → Bool
  | .permno => false
  | .year => false
  | .state => false
  | .roaHsu => c.roaHsu.isna
  | .lag1 => c.lag1.isna
  | .lag2 => c.lag2.isna
  | .logAssets => c.logNA
  | .leverage => c.leverage.isna

/-- `reg_vars` of CORRECTED_ANALYSIS line 156: the union of all variables,
including AFFECTED_RATIO_lag2, which no fitted model uses. -/
def regVars : List RegCol :=
  [.permno, .year, .state, .roaHsu, .lag1, .lag2, .logAssets, .leverage]

/-- CORRECTED_ANALYSIS line 159: `reg_data = data[reg_vars].dropna()` — the
single global row filter, dropping every row missing any `reg_vars` column. -/
def regData (raw : List PRow) : List CRow :=
  (prepare raw).filter fun c => regVars.all fun v => !(colNA c v)

/-- Variables of model 1 (line 178): ROA_HSU ~ AFFECTED_RATIO_lag1. -/
def modelVars1 : List RegCol := [.roaHsu, .lag1]

/-- Variables of model 2 (line 188): adds LOG_ASSETS and LEVERAGE. -/
def modelVars2 : List RegCol := [.roaHsu, .lag1, .logAssets, .leverage]

/-- Variables of model 3 (line 206): model 2 plus the YEAR factor. -/
def modelVars3 : List RegCol := [.roaHsu, .lag1, .logAssets, .leverage, .year]

/-- Rows a model actually uses: statsmodels' formula API drops rows with a
missing value in any variable of the formula, so the observation count of a
fit over `rows` is the number of rows non-missing in that model's variables. -/
def nobs (vars : List RegCol) (rows : List CRow) : ℕ :=
  (rows.filter fun c => vars.all fun v => !(colNA c v)).length

/-! ## The LOG_ASSETS columns (CORRECTED_ANALYSIS line 140;
fix_data_and_run_analysis line 126) -/

/-- Exact representation of one cell of a numpy log column. A finite cell
holds `ln q` for a positive rational argument `q`; since the natural log is
injective on positive arguments, recording the argument represents the value
exactly (see `logCell_inj_on_pos` below for the justification over ℝ). -/
inductive LogCell where
  | ln (q : ℚ)
  | nan
  | pinf
  | ninf
deriving DecidableEq, Repr

/-- numpy `np.log` on a float cell: log of a positive number is finite, of
zero is -inf, of a negative number or NaN is NaN; log of +inf is +inf. -/
def npLogCell : FVal → LogCell
  | .num a => if 0 < a then .ln a else if a = 0 then .ninf else .nan
  | .nan => .nan
  | .pinf => .pinf
  | .ninf => .nan

/-- pandas `.replace(0, np.nan)` on one float cell. -/
def replaceZeroNan : FVal → FVal
  | .num a => if a = 0 then .nan else .num a
  | v => v

/-- CORRECTED_ANALYSIS line 140: `LOG_ASSETS = np.log(TOTAL_ASSETS.replace(0, np.nan))`. -/
def logAssetsCorrected (assets : FVal) : LogCell :=
  npLogCell (replaceZeroNan assets)

/-- fix_data_and_run_analysis line 126: `LOG_ASSETS = np.log(TOTAL_ASSETS + 1)`. -/
def logAssetsFix (assets : FVal) : LogCell :=
  npLogCell (FVal.fadd assets (FVal.num 1))

/-! ## fix_data_and_run_analysis.py: panel preparation and pooled OLS
(lines 113-127, 169-189) -/

/-- A raw row of the fix_data merged panel. Columns not consumed by any
derived column or filter the claims touch (facility counts, TICKER,
TOTAL_REVENUE, CASH_FROM_OPS, CAPITAL_EXPENDITURE) are omitted. -/
structure MRow where
  permno : ℕ
  year : ℤ
  affected : FVal
  assets : FVal
  netIncome : FVal
  debt : FVal
deriving DecidableEq, Repr, Inhabited

/-- Sort key of a fix_data row. -/
def MRow.key (r : MRow) : ℕ × ℤ := (r.permno, r.year)

/-- Whether `np.log(TOTAL_ASSETS + 1)` (line 126) is NaN for a given
TOTAL_ASSETS cell: the argument `a + 1` is negative exactly when `a < -1`. -/
def logNAfix : FVal → Bool
  | .num a => decide (a < -1)
  | .nan => true
  | .pinf => false
  | .ninf => true

/-- A prepared row of fix_data_and_run_analysis (lines 116-127).
`lag1` = AFFECTED_RATIO_lag1, `atLag1` = TOTAL_ASSETS_lag1, `roa` = ROA,
`roaContemp` = ROA_contemporaneous, `logNA` = NaN-ness of LOG_ASSETS,
`leverage` = LEVERAGE. The later columns of lines 130-133 (ROA_lag1,
ROA_lead1, DELTA_ROA, ASSET_GROWTH) feed no filter or fit a claim touches
and are omitted. -/
structure NRow where
  base : MRow
  lag1 : FVal
  atLag1 : FVal
  roa : FVal
  roaContemp : FVal
  logNA : Bool
  leverage : FVal
deriving DecidableEq, Repr, Inhabited

/-- fix_data lines 116-127 applied to an already sorted panel: lag the
exposure and the total assets by entity, then
`ROA = NET_INCOME / TOTAL_ASSETS_lag1` and the control columns. -/
def prepareFixSorted (d : List MRow) : List NRow :=
  let l1 := groupShift 1 MRow.permno MRow.affected d
  let a1 := groupShift 1 MRow.permno MRow.assets d
  (List.range d.length).map fun i =>
    let r := d.getD i default
    { base := r
      lag1 := l1.getD i FVal.nan
      atLag1 := a1.getD i FVal.nan
      roa := FVal.fdiv r.netIncome (a1.getD i FVal.nan)
      roaContemp := FVal.fdiv r.netIncome r.assets
      logNA := logNAfix r.assets
      leverage := FVal.fdiv r.debt r.assets }

/-- fix_data lines 113-127: sort by (PERMNO, YEAR) first, then build the
derived columns. -/
def prepareFix (raw : List MRow) : List NRow :=
  prepareFixSorted (sortPanel MRow.key raw)

/-- fix_data lines 169-170: drop rows missing ROA, AFFECTED_RATIO_lag1,
LOG_ASSETS or LEVERAGE, then keep rows with YEAR at most 2021. -/
def regDataFix (raw : List MRow) : List NRow :=
  ((prepareFix raw).filter fun c =>
    !(c.roa.isna || c.lag1.isna || c.logNA || c.leverage.isna)).filter
    fun c => decide (c.base.year ≤ 2021)

/-- The (x, y) points the pooled OLS of ROA on AFFECTED_RATIO_lag1 reads from
the regression sample. The sample rows are non-missing by construction; the
finite pairs are extracted (statsmodels rejects non-finite cells outright,
and none arise in the scenarios considered). -/
def regPoints (rows : List NRow) : List (ℚ × ℚ) :=
  rows.filterMap fun c =>
    match c.lag1, c.roa with
    | .num x, .num y => some (x, y)
    | _, _ => none

/-- Result of a bivariate OLS fit with intercept: slope and intercept point
estimates, the squared standard error of the slope, and the observation
count. -/
structure OLSFit where
  slope : ℚ
  intercept : ℚ
  slopeVar : ℚ
  n : ℕ
deriving DecidableEq, Repr

/-- `smf.ols('y ~ x').fit()` in closed form: slope and intercept solve the
normal equations, and the squared slope standard error is
`s² · N / (N·Σx² - (Σx)²)` with `s² = RSS/(N-2)`. Degenerate designs (a
constant regressor, or no residual degrees of freedom) yield no fit. -/
def olsSimple (pts : List (ℚ × ℚ)) : Option OLSFit :=
  let n : ℚ := pts.length
  let sx := (pts.map Prod.fst).sum
  let sy := (pts.map Prod.snd).sum
  let sxx := (pts.map fun p => p.1 * p.1).sum
  let sxy := (pts.map fun p => p.1 * p.2).sum
  let den := n * sxx - sx * sx
  if den = 0 ∨ pts.length ≤ 2 then none
  else
    let b := (n * sxy - sx * sy) / den
    let a := (sy - b * sx) / n
    let rss := (pts.map fun p => (p.2 - a - b * p.1) ^ 2).sum
    some ⟨b, a, (rss / (n - 2)) * n / den, pts.length⟩

/-! ## preliminary_analysis.py: the prepared table across the model batch
(lines 120-137, 156, 197-267) -/

/-- A row of the preliminary_analysis synthetic panel at the point the
pipeline becomes deterministic (line 117): the random generation of the raw
columns, including `roa`, is demonstration glue that the spec excludes
(§1 non-goals), so those columns enter as given inputs.
`affected` = affected_ratio, `geo` = geo_diversification. -/
structure GRow where
  permno : ℕ
  year : ℤ
  affected : FVal
  geo : FVal
  logAssets : FVal
  leverage : FVal
  roa : FVal
deriving DecidableEq, Repr, Inhabited

/-- Sort key of a preliminary_analysis row. -/
def GRow.key (r : GRow) : ℕ × ℤ := (r.permno, r.year)

/-- A row of the prepared preliminary_analysis table:
`lag1` = affected_ratio_lag1 (line 121), `interaction` (line 137). -/
structure HRow where
  base : GRow
  lag1 : FVal
  interaction : FVal
deriving DecidableEq, Repr, Inhabited

/-- preliminary_analysis lines 121-137 applied to an already sorted panel:
lag the exposure by entity and compute
`interaction = affected_ratio_lag1 * geo_diversification`. -/
def dfPrelimSorted (d : List GRow) : List HRow :=
  let l1 := groupShift 1 GRow.permno GRow.affected d
  (List.range d.length).map fun i =>
    let r := d.getD i default
    { base := r
      lag1 := l1.getD i FVal.nan
      interaction := FVal.fmul (l1.getD i FVal.nan) r.geo }

/-- preliminary_analysis lines 120-137: sort first, then the derived columns. -/
def dfPrelim (raw : List GRow) : List HRow :=
  dfPrelimSorted (sortPanel GRow.key raw)

/-- preliminary_analysis line 156: `df_reg = df.dropna(subset=['affected_ratio_lag1']).copy()`. -/
def dfReg (raw : List GRow) : List HRow :=
  (dfPrelim raw).filter fun r => !r.lag1.isna

/-- preliminary_analysis line 225: the column reassignment
`df_reg['interaction'] = df_reg['affected_ratio_lag1'] * df_reg['geo_diversification']`
executed between the fits of model 2 and model 3. -/
def setInteraction (rows : List HRow) : List HRow :=
  rows.map fun r => { r with interaction := FVal.fmul r.lag1 r.base.geo }

/-- The table model 1 (line 197) reads. -/
def tableForModel1 (raw : List GRow) : List HRow := dfReg raw

/-- The table model 2 (line 213) reads: nothing runs between the two fits. -/
def tableForModel2 (raw : List GRow) : List HRow := tableForModel1 raw

/-- The table model 3 (line 227) reads: line 225 reassigns the interaction
column first. -/
def tableForModel3 (raw : List GRow) : List HRow :=
  setInteraction (tableForModel2 raw)

/-- The table model 4 (line 266) reads: nothing runs between models 3 and 4. -/
def tableForModel4 (raw : List GRow) : List HRow := tableForModel3 raw

/-! ## Regression runner: OLS, clustered covariance, fixed-effect strategies

The scripts delegate the numeric fitting to statsmodels / linearmodels, whose
code is not part of this repository; these definitions are therefore modelled
from the spec (§4.2) where marked, at the level the claims address. -/

section OLSMatrix

variable {n k g p : Type}
variable [Fintype n] [DecidableEq n] [Fintype k] [DecidableEq k]
variable [Fintype g] [DecidableEq g] [Fintype p] [DecidableEq p]

/-- Computable inverse of a square rational matrix via the adjugate: the
actual inverse when the determinant is nonzero, the zero matrix otherwise
(matching `Ring.inverse`, hence `Matrix.inv`). -/
def qInv (A : Matrix k k ℚ) : Matrix k k ℚ := (A.det)⁻¹ • A.adjugate

/-- Modelled from the spec (§4.2): closed-form ordinary least squares
coefficients via the normal equations (the fitting library is not in src/). -/
def olsBeta (X : Matrix n k ℚ) (y : n → ℚ) : k → ℚ :=
  qInv (Xᵀ * X) *ᵥ (Xᵀ *ᵥ y)

/-- OLS residuals. -/
def olsResid (X : Matrix n k ℚ) (y : n → ℚ) : n → ℚ := y - X *ᵥ olsBeta X y

/-- Modelled from the spec (§4.2): the grouped residual contribution of one
entity (cluster) — the within-cluster sum of regressor times residual. -/
def clusterScore (X : Matrix n k ℚ) (u : n → ℚ) (ent : n → g) (c : g) :
    k → ℚ :=
  fun j => ∑ i, if ent i = c then X i j * u i else 0

/-- Modelled from the spec (§4.2): the meat of the cluster-robust sandwich —
residual contributions grouped by entity before the outer product. -/
def clusterMeat (X : Matrix n k ℚ) (u : n → ℚ) (ent : n → g) : Matrix k k ℚ :=
  ∑ c, Matrix.vecMulVec (clusterScore X u ent c) (clusterScore X u ent c)

/-- Modelled from the spec (§4.2): cluster-robust covariance of the OLS
coefficients — bread (XᵀX)⁻¹ on both sides of the grouped meat.
Library-specific finite-sample scale corrections (not in src/) are omitted:
they multiply the matrix by a positive scalar, so they cannot affect a
zero-versus-positive comparison, and they cancel from the dummy/demeaned
comparison when applied consistently. -/
def clusterCov (X : Matrix n k ℚ) (y : n → ℚ) (ent : n → g) : Matrix k k ℚ :=
  qInv (Xᵀ * X) * clusterMeat X (olsResid X y) ent * qInv (Xᵀ * X)

/-- Plain (i.i.d.) OLS covariance: σ̂² (XᵀX)⁻¹ with σ̂² = RSS/(N − #params)
(spec §4.2: residual degrees of freedom N − rank of the design). -/
def plainCov (X : Matrix n k ℚ) (y : n → ℚ) : Matrix k k ℚ :=
  ((∑ i, olsResid X y i ^ 2) /
      ((Fintype.card n : ℚ) - (Fintype.card k : ℚ))) • qInv (Xᵀ * X)

/-- The entity dummy matrix: one indicator column per entity level. -/
def dummyMat (ent : n → g) : Matrix n g ℚ :=
  Matrix.of fun i c => if ent i = c then 1 else 0

/-- Modelled from the spec (§4.2 (a)): the design of dummy-variable
fixed-effects estimation — all entity indicator columns followed by the
substantive regressors (the drop-the-intercept parametrisation). -/
def feX (ent : n → g) (F : Matrix n p ℚ) : Matrix n (g ⊕ p) ℚ :=
  Matrix.fromColumns (dummyMat ent) F

/-- The annihilator (residual-maker) transform of a block of columns:
M = I − D(DᵀD)⁻¹Dᵀ. -/
def annih (D : Matrix n g ℚ) : Matrix n n ℚ :=
  1 - D * qInv (Dᵀ * D) * Dᵀ

/-- The within-entity demeaning transform: the annihilator of the entity
dummies. -/
def withinM (ent : n → g) : Matrix n n ℚ :=
  annih (dummyMat ent)

/-- The restriction of a vector to one entity's rows (zero elsewhere), used
to express a cluster's grouped score. -/
def maskVec (ent : n → g) (c : g) (u : n → ℚ) : n → ℚ :=
  fun i => if ent i = c then u i else 0

/-- Strategy (a) of spec §4.2: the coefficient of each substantive regressor
from dummy-variable estimation. -/
def dummyCoef (ent : n → g) (F : Matrix n p ℚ) (y : n → ℚ) : p → ℚ :=
  fun j => olsBeta (feX ent F) y (Sum.inr j)

/-- Strategy (b) of spec §4.2: coefficients from OLS on within-entity
demeaned data. -/
def demeanCoef (ent : n → g) (F : Matrix n p ℚ) (y : n → ℚ) : p → ℚ :=
  olsBeta (withinM ent * F) (withinM ent *ᵥ y)

/-- Failure modes of one specification (spec §7). -/
inductive FitError where
  | rankDeficiency
  | configuration
deriving DecidableEq, Repr

/-- Modelled from the spec (§4.2, §7): the panel fit of CORRECTED_ANALYSIS
model 4 with the library's rank-check toggle (the `check_rank` argument of
the call at lines 229-234; linearmodels itself is not in src/). With the
check on, a design whose normal matrix is singular signals rank deficiency;
with the check off the normal-equation solve runs regardless — and `qInv` of
a singular matrix is the zero matrix, i.e. silently degenerate coefficients. -/
def panelFit (checkRank : Bool) (X : Matrix n k ℚ) (y : n → ℚ) :
    Except FitError (k → ℚ) :=
  if checkRank ∧ (Xᵀ * X).det = 0 then Except.error FitError.rankDeficiency
  else Except.ok (olsBeta X y)

/-- CORRECTED_ANALYSIS lines 229-234: the source's call passes
`check_rank=False`. -/
def model4Fit (X : Matrix n k ℚ) (y : n → ℚ) : Except FitError (k → ℚ) :=
  panelFit false X y

end OLSMatrix

/-- One row of a cross-specification comparison table: either the numeric
record of a fitted specification, or the failure marker the spec (§7)
requires for a failed one. -/
inductive CompRow where
  | fitted (coefs : List ℚ)
  | failedMarker
deriving DecidableEq, Repr

/-- fix_data_and_run_analysis lines 185-221 and 230-245: the specifications
are fit unconditionally in sequence on the same sample (no exception
handling anywhere in the script), and the comparison table gets one numeric
row per specification. Designs are heterogeneous in width, hence the sigma
type. -/
def fixBatch {m : ℕ} (designs : List ((q : ℕ) × Matrix (Fin m) (Fin q) ℚ))
    (y : Fin m → ℚ) : List CompRow :=
  designs.map fun s => CompRow.fitted (List.ofFn (olsBeta s.2 y))

/-! ## Concrete inputs used by counterexamples and witnesses -/

/-- The lag-correctness panel of spec §8: entity 1 observed in periods
1,2,3,5 (gap at 4), entity 2 in periods 1,2; the exposure column carries
distinct markers. -/
def lagPanel : List PRow :=
  [⟨1, 1, .num 10, .num 1, .num 0, .num 0, .num 0, 0⟩,
   ⟨1, 2, .num 20, .num 1, .num 0, .num 0, .num 0, 0⟩,
   ⟨1, 3, .num 30, .num 1, .num 0, .num 0, .num 0, 0⟩,
   ⟨1, 5, .num 50, .num 1, .num 0, .num 0, .num 0, 0⟩,
   ⟨2, 1, .num 100, .num 1, .num 0, .num 0, .num 0, 0⟩,
   ⟨2, 2, .num 200, .num 1, .num 0, .num 0, .num 0, 0⟩]

/-- The same logical panel as `lagPanel` with the input rows shuffled. -/
def lagPanelShuffled : List PRow :=
  [⟨2, 2, .num 200, .num 1, .num 0, .num 0, .num 0, 0⟩,
   ⟨1, 3, .num 30, .num 1, .num 0, .num 0, .num 0, 0⟩,
   ⟨1, 1, .num 10, .num 1, .num 0, .num 0, .num 0, 0⟩,
   ⟨2, 1, .num 100, .num 1, .num 0, .num 0, .num 0, 0⟩,
   ⟨1, 5, .num 50, .num 1, .num 0, .num 0, .num 0, 0⟩,
   ⟨1, 2, .num 20, .num 1, .num 0, .num 0, .num 0, 0⟩]

/-- Counterexample panel for ratio propagation: one entity whose first-period
total assets are zero, so AT_lag1 is zero in period 2 while OIBDP is 1. -/
def zeroAssetsPanel : List PRow :=
  [⟨1, 1, .num 0, .num 0, .num 1, .num 0, .num 1, 0⟩,
   ⟨1, 2, .num 0, .num 5, .num 1, .num 0, .num 1, 0⟩]

/-- Witness panel: one entity over three periods, all raw columns present and
positive; its second row has AFFECTED_RATIO_lag1 present but
AFFECTED_RATIO_lag2 missing. -/
def threeYearPanel : List PRow :=
  [⟨1, 1, .num 1, .num 10, .num 1, .num 2, .num 3, 0⟩,
   ⟨1, 2, .num 2, .num 20, .num 1, .num 2, .num 3, 0⟩,
   ⟨1, 3, .num 3, .num 30, .num 1, .num 2, .num 3, 0⟩]

/-- The end-to-end scenario panel of spec §8: entities 1 (A) and 2 (B) over
periods 1-3, with the exposure, total-assets and net-income paths of the
spec and zero debt. -/
def scenarioPanel : List MRow :=
  [⟨1, 1, .num 0, .num 100, .num 10, .num 0⟩,
   ⟨1, 2, .num (1/2), .num 110, .num 11, .num 0⟩,
   ⟨1, 3, .num 1, .num 120, .num 12, .num 0⟩,
   ⟨2, 1, .num (1/5), .num 50, .num 5, .num 0⟩,
   ⟨2, 2, .num (1/5), .num 55, .num 5, .num 0⟩,
   ⟨2, 3, .num (1/5), .num 60, .num 5, .num 0⟩]

/-- The scenario panel with its first two rows swapped (same logical panel). -/
def scenarioPanelSwapped : List MRow :=
  [⟨1, 2, .num (1/2), .num 110, .num 11, .num 0⟩,
   ⟨1, 1, .num 0, .num 100, .num 10, .num 0⟩,
   ⟨1, 3, .num 1, .num 120, .num 12, .num 0⟩,
   ⟨2, 1, .num (1/5), .num 50, .num 5, .num 0⟩,
   ⟨2, 2, .num (1/5), .num 55, .num 5, .num 0⟩,
   ⟨2, 3, .num (1/5), .num 60, .num 5, .num 0⟩]

/-- Counterexample design for cluster inflation: intercept plus a regressor
whose within-entity deviations cancel. -/
def X7 : Matrix (Fin 4) (Fin 2) ℚ := !![1, -1; 1, 1; 1, -1; 1, 1]

/-- Response making the residuals constant within each entity. -/
def y7 : Fin 4 → ℚ := ![1, 1, -1, -1]

/-- Entity assignment: two entities with two rows each. -/
def ent7 : Fin 4 → Fin 2 := ![0, 0, 1, 1]

/-- A rank-deficient design: the second column duplicates the first. -/
def Xsing : Matrix (Fin 3) (Fin 2) ℚ := !![1, 1; 2, 2; 3, 3]

/-- A response for the rank-deficient design. -/
def ysing : Fin 3 → ℚ := ![1, 2, 4]

/-- Witness entity assignment for the fixed-effects equivalence. -/
def entW : Fin 4 → Fin 2 := ![0, 0, 1, 1]

/-- Witness substantive regressor for the fixed-effects equivalence. -/
def FW : Matrix (Fin 4) (Fin 1) ℚ := !![1; 2; 3; 5]

/-- Witness response for the fixed-effects equivalence. -/
def yW : Fin 4 → ℚ := ![2, 1, 7, 4]

/-- Reindexing of the witness design's two-dummies-plus-one-regressor column
space by Fin 3, used to evaluate its determinant. -/
def sumEquiv3 : Fin 3 ≃ (Fin 2 ⊕ Fin 1) where
  toFun i := if h : (i : ℕ) < 2 then Sum.inl ⟨i, h⟩ else Sum.inr ⟨0, by omega⟩
  invFun s :=
    match s with
    | Sum.inl a => ⟨a, by omega⟩
    | Sum.inr _ => ⟨2, by omega⟩
  left_inv := by decide
  right_inv := by decide

/-! ## Theorems -/

theorem length_shiftList (k : ℕ) (xs : List FVal) :
    (shiftList k xs).length = xs.length := by
  simp [shiftList]

theorem length_groupShift {α : Type} (k : ℕ) (key : α → ℕ) (col : α → FVal)
    (rows : List α) : (groupShift k key col rows).length = rows.length := by
  simp [groupShift]

theorem getElem?_shiftList (k m : ℕ) (xs : List FVal) (hm : m < xs.length) :
    (shiftList k xs)[m]? =
      if m < k then some FVal.nan else xs[m - k]? := by
  unfold shiftList
  rw [List.getElem?_take_of_lt hm]
  by_cases h : m < k
  · rw [List.getElem?_append_left (by simpa using h), if_pos h]
    simp [List.getElem?_replicate, h]
  · rw [List.getElem?_append_right (by simpa using Nat.le_of_not_lt h), if_neg h]
    simp

theorem filter_take_eq_take_filter {α : Type} (p : α → Bool) (l : List α) (i : ℕ) :
    (l.take i).filter p =
      (l.filter p).take ((l.take i).filter p).length := by
  have hsplit : (l.take i).filter p ++ (l.drop i).filter p = l.filter p := by
    rw [← List.filter_append, List.take_append_drop]
  calc (l.take i).filter p
      = ((l.take i).filter p ++ (l.drop i).filter p).take
          ((l.take i).filter p).length := by rw [List.take_left]
    _ = (l.filter p).take ((l.take i).filter p).length := by rw [hsplit]

/-- C1: for every panel (in particular every panel sorted by (entity, period)
ascending), the grouped shift-by-k lag of a numeric column at row `i` equals
the column's value at the k-th prior row observed for the same entity — the
last-but-(k-1) element of `priorObs`, which collects only rows of row `i`'s
own entity — and is missing whenever the entity has fewer than `k` prior
observed rows. In particular a lag value is never taken from a row of a
different entity, and the lag basis is prior observed rows, not calendar
periods. -/
theorem lag_uses_kth_prior_observation {α : Type} (key : α → ℕ) (col : α → FVal)
    (rows : List α) (k i : ℕ) (hk : 1 ≤ k) (hi : i < rows.length) :
    (groupShift k key col rows).getD i FVal.nan =
      if k ≤ (priorObs key col rows i (key rows[i])).length then
        (priorObs key col rows i (key rows[i])).getD
          ((priorObs key col rows i (key rows[i])).length - k) FVal.nan
      else FVal.nan := by
  set p : α → Bool := fun s => key s == key rows[i] with hp
  set m := ((rows.take i).filter p).length with hm
  have hmem : rows[i]? = some rows[i] := List.getElem?_eq_getElem hi
  have hLHS : (groupShift k key col rows).getD i FVal.nan =
      (shiftList k ((rows.filter p).map col)).getD m FVal.nan := by
    unfold groupShift
    rw [List.getD_eq_getElem?_getD, List.getElem?_map, List.getElem?_enum, hmem]
    simp [hp, hm]
  have hpr : p rows[i] = true := by simp [hp]
  have hdrop : rows.drop i = rows[i] :: rows.drop (i + 1) :=
    List.drop_eq_getElem_cons hi
  have hsplit : rows.filter p = (rows.take i).filter p ++ (rows.drop i).filter p := by
    rw [← List.filter_append, List.take_append_drop]
  have hmlt : m < ((rows.filter p).map col).length := by
    rw [List.length_map, hsplit, List.length_append, hdrop,
      List.filter_cons_of_pos hpr]
    simp [hm]
  have hprior : priorObs key col rows i (key rows[i]) =
      ((rows.filter p).map col).take m := by
    unfold priorObs
    rw [filter_take_eq_take_filter p rows i, ← hm, List.map_take]
  have hpriorlen : (priorObs key col rows i (key rows[i])).length = m := by
    rw [hprior, List.length_take]
    exact min_eq_left (Nat.le_of_lt hmlt)
  rw [hLHS, List.getD_eq_getElem?_getD, getElem?_shiftList k m _ hmlt, hpriorlen]
  by_cases hc : k ≤ m
  · rw [if_pos hc, if_neg (by omega), hprior, List.getD_eq_getElem?_getD,
      List.getElem?_take_of_lt (show m - k < m by omega)]
  · rw [if_neg hc, if_pos (by omega)]
    rfl

/-- Witness for C1 on the spec §8 panel: with the panel sorted, entity 1's
row at period 5 (position 3) takes its Lag(1) from the period-3 row (value
10·3 = 30), skipping the calendar gap at period 4. -/
theorem lag_uses_kth_prior_observation_witness :
    (1 ≤ 1 ∧ 3 < lagPanel.length) ∧
      (groupShift 1 PRow.permno PRow.affected lagPanel).getD 3 FVal.nan =
        FVal.num 30 := by
  refine ⟨⟨le_refl 1, by decide⟩, ?_⟩
  rw [lag_uses_kth_prior_observation PRow.permno PRow.affected lagPanel 1 3
    (le_refl 1) (by decide)]
  decide

theorem keyLe_total (x y : ℕ × ℤ) : keyLe x y ∨ keyLe y x := by
  unfold keyLe
  omega

theorem keyLe_trans {x y z : ℕ × ℤ} (h1 : keyLe x y) (h2 : keyLe y z) :
    keyLe x z := by
  unfold keyLe at h1 h2 ⊢
  omega

theorem keyLt_of_keyLe_of_ne {x y : ℕ × ℤ} (h : keyLe x y) (hne : x ≠ y) :
    keyLt x y := by
  rcases h with h | ⟨h1, h2⟩
  · exact Or.inl h
  · exact Or.inr ⟨h1, lt_of_le_of_ne h2 fun hc => hne (Prod.ext h1 hc)⟩

theorem keyLt_asymm {x y : ℕ × ℤ} (h1 : keyLt x y) (h2 : keyLt y x) : False := by
  unfold keyLt at h1 h2
  omega

/-- Two inputs that are permutations of one logical panel with unique
(entity, period) keys sort to the same row sequence. -/
theorem sortPanel_eq_of_perm {α : Type} (key : α → ℕ × ℤ) {l₁ l₂ : List α}
    (hp : l₁.Perm l₂) (hn : (l₁.map key).Nodup) :
    sortPanel key l₁ = sortPanel key l₂ := by
  haveI : IsTotal α fun a b => keyLe (key a) (key b) :=
    ⟨fun a b => keyLe_total (key a) (key b)⟩
  haveI : IsTrans α fun a b => keyLe (key a) (key b) :=
    ⟨fun _ _ _ h1 h2 => keyLe_trans h1 h2⟩
  haveI : IsAntisymm α fun a b => keyLt (key a) (key b) :=
    ⟨fun _ _ h1 h2 => (keyLt_asymm h1 h2).elim⟩
  have hs₁ := List.sorted_insertionSort (fun a b => keyLe (key a) (key b)) l₁
  have hs₂ := List.sorted_insertionSort (fun a b => keyLe (key a) (key b)) l₂
  have hperm : (sortPanel key l₁).Perm (sortPanel key l₂) :=
    ((List.perm_insertionSort _ l₁).trans hp).trans
      (List.perm_insertionSort _ l₂).symm
  have hn₁ : ((sortPanel key l₁).map key).Nodup :=
    (((List.perm_insertionSort _ l₁).map key).nodup_iff).mpr hn
  have hn₂ : ((sortPanel key l₂).map key).Nodup :=
    ((hperm.map key).nodup_iff).mp hn₁
  have hstrict : ∀ l : List α,
      l.Sorted (fun a b => keyLe (key a) (key b)) → (l.map key).Nodup →
      l.Sorted fun a b => keyLt (key a) (key b) := by
    intro l hs hnd
    have hpw : l.Pairwise fun a b => key a ≠ key b := List.pairwise_map.mp hnd
    exact (hs.and hpw).imp fun h => keyLt_of_keyLe_of_ne h.1 h.2
  exact List.eq_of_perm_of_sorted hperm
    (hstrict _ hs₁ hn₁) (hstrict _ hs₂ hn₂)

/-- C4: the Panel Preparer is input-order invariant. For every logical panel
with unique (entity, period) keys, running the preparer (internal sort, then
lags, ratios, logs) on any permutation of the input rows yields exactly the
same output table — for the CORRECTED_ANALYSIS preparer and for the
fix_data_and_run_analysis preparer alike; in particular all lag values are
independent of the input row order. -/
theorem prepare_input_order_invariant (l₁ l₂ : List PRow) (m₁ m₂ : List MRow)
    (hP : l₁.Perm l₂) (hPn : (l₁.map PRow.key).Nodup)
    (hM : m₁.Perm m₂) (hMn : (m₁.map MRow.key).Nodup) :
    prepare l₁ = prepare l₂ ∧ prepareFix m₁ = prepareFix m₂ := by
  constructor
  · unfold prepare
    rw [sortPanel_eq_of_perm PRow.key hP hPn]
  · unfold prepareFix
    rw [sortPanel_eq_of_perm MRow.key hM hMn]

/-- Witness for C4: a genuinely shuffled copy of the spec §8 lag panel and
the swapped scenario panel produce the very same prepared tables as their
sorted versions. -/
theorem prepare_input_order_invariant_witness :
    (lagPanelShuffled.Perm lagPanel ∧ (lagPanelShuffled.map PRow.key).Nodup ∧
      scenarioPanelSwapped.Perm scenarioPanel ∧
      (scenarioPanelSwapped.map MRow.key).Nodup) ∧
    prepare lagPanelShuffled = prepare lagPanel ∧
      prepareFix scenarioPanelSwapped = prepareFix scenarioPanel := by
  have hP : lagPanelShuffled.Perm lagPanel := by decide
  have hPn : (lagPanelShuffled.map PRow.key).Nodup := by decide
  have hM : scenarioPanelSwapped.Perm scenarioPanel := by
    unfold scenarioPanel scenarioPanelSwapped
    exact List.Perm.swap _ _ _
  have hMn : (scenarioPanelSwapped.map MRow.key).Nodup := by decide
  exact ⟨⟨hP, hPn, hM, hMn⟩,
    prepare_input_order_invariant lagPanelShuffled lagPanel
      scenarioPanelSwapped scenarioPanel hP hPn hM hMn⟩

theorem fdiv_nan_right (x : FVal) : FVal.fdiv x FVal.nan = FVal.nan := by
  cases x <;> rfl

theorem fdiv_num_zero (x : FVal) :
    FVal.fdiv x (FVal.num 0) = FVal.nan ∨ FVal.fdiv x (FVal.num 0) = FVal.pinf ∨
      FVal.fdiv x (FVal.num 0) = FVal.ninf := by
  cases x with
  | nan => exact Or.inl rfl
  | pinf => exact Or.inr (Or.inl (by simp [FVal.fdiv]))
  | ninf => exact Or.inr (Or.inr (by simp [FVal.fdiv]))
  | num a =>
    rcases lt_trichotomy a 0 with h | h | h
    · exact Or.inr (Or.inr (by simp [FVal.fdiv, h.ne, not_lt.mpr h.le]))
    · subst h
      exact Or.inl (by simp [FVal.fdiv])
    · exact Or.inr (Or.inl (by simp [FVal.fdiv, h.ne', h]))

theorem prepareSorted_getD (d : List PRow) (i : ℕ) (hi : i < d.length) :
    (prepareSorted d).getD i default =
      { base := d.getD i default
        lag1 := (groupShift 1 PRow.permno PRow.affected d).getD i FVal.nan
        atLag1 := (groupShift 1 PRow.permno PRow.assets d).getD i FVal.nan
        lag2 := (groupShift 2 PRow.permno PRow.affected d).getD i FVal.nan
        roaHsu := FVal.fdiv (d.getD i default).oibdp
          ((groupShift 1 PRow.permno PRow.assets d).getD i FVal.nan)
        roaOrig := FVal.fdiv (d.getD i default).netIncome (d.getD i default).assets
        logNA := logNAcorrected (d.getD i default).assets
        leverage := FVal.fdiv (d.getD i default).debt (d.getD i default).assets } := by
  unfold prepareSorted
  rw [List.getD_eq_getElem?_getD, List.getElem?_map]
  simp [List.getElem?_range, hi]

/-- C2 amended: if the lagged total-assets denominator AT_lag1 is missing,
ROA_HSU is missing, and the division itself is total (never an error); but a
zero denominator yields a non-finite value — NaN, +inf or -inf — rather than
a missing one, because numpy division of a nonzero numerator by zero
produces a signed infinity that pandas does not treat as missing. -/
theorem roa_missing_or_nonfinite_on_bad_denominator (raw : List PRow) (i : ℕ)
    (hi : i < (prepare raw).length) :
    (((prepare raw).getD i default).atLag1 = FVal.nan →
      ((prepare raw).getD i default).roaHsu = FVal.nan) ∧
    (((prepare raw).getD i default).atLag1 = FVal.num 0 →
      ((prepare raw).getD i default).roaHsu = FVal.nan ∨
      ((prepare raw).getD i default).roaHsu = FVal.pinf ∨
      ((prepare raw).getD i default).roaHsu = FVal.ninf) := by
  have hi' : i < (sortPanel PRow.key raw).length := by
    simpa [prepare, prepareSorted] using hi
  rw [show prepare raw = prepareSorted (sortPanel PRow.key raw) from rfl,
    prepareSorted_getD _ i hi']
  refine ⟨fun h => ?_, fun h => ?_⟩
  · simp only at h ⊢
    rw [h, fdiv_nan_right]
  · simp only at h ⊢
    rw [h]
    exact fdiv_num_zero _

/-- Counterexample to C2 as stated: in the panel whose entity has zero total
assets in period 1, AT_lag1 in period 2 is zero and OIBDP is 1, and the
computed ROA_HSU is +inf — a non-missing infinity the downstream `dropna`
does not remove — where the claim requires a missing value. -/
theorem roa_inf_on_zero_lagged_assets_cex :
    ((prepare zeroAssetsPanel).getD 1 default).atLag1 = FVal.num 0 ∧
    ((prepare zeroAssetsPanel).getD 1 default).roaHsu = FVal.pinf ∧
    FVal.pinf ≠ FVal.nan := by
  refine ⟨?_, ?_, by decide⟩ <;>
  norm_num +decide [prepare, prepareSorted, zeroAssetsPanel, sortPanel,
    List.insertionSort, List.orderedInsert, keyLe, PRow.key, groupShift, shiftList,
    List.enum, List.enumFrom, FVal.fdiv, logNAcorrected, List.range, List.range.loop]

/-- Witness for the amended C2 at the concrete zero-assets panel. -/
theorem roa_missing_or_nonfinite_witness :
    ((prepare zeroAssetsPanel).getD 1 default).atLag1 = FVal.num 0 ∧
      (((prepare zeroAssetsPanel).getD 1 default).roaHsu = FVal.nan ∨
       ((prepare zeroAssetsPanel).getD 1 default).roaHsu = FVal.pinf ∨
       ((prepare zeroAssetsPanel).getD 1 default).roaHsu = FVal.ninf) := by
  have h0 : ((prepare zeroAssetsPanel).getD 1 default).atLag1 = FVal.num 0 := by
    decide
  exact ⟨h0,
    (roa_missing_or_nonfinite_on_bad_denominator zeroAssetsPanel 1 (by decide)).2 h0⟩

/-- Every row of the global regression sample is non-missing in every
`reg_vars` column. -/
theorem regData_no_na (raw : List PRow) :
    ∀ c ∈ regData raw, ∀ v ∈ regVars, colNA c v = false := by
  intro c hc v hv
  have hall := List.all_eq_true.mp (List.mem_filter.mp hc).2 v hv
  simpa using hall

/-- C10: CORRECTED_ANALYSIS fits every model on the one sample produced by
the single global `dropna` over the union `reg_vars` of all variable sets
(including AFFECTED_RATIO_lag2, which no fitted model uses). Consequently
models 1-3 all report the same observation count — the size of `reg_data` —
and any prepared row missing AFFECTED_RATIO_lag2 alone is excluded from the
sample every model reads. -/
theorem global_filter_single_sample (raw : List PRow) :
    nobs modelVars1 (regData raw) = (regData raw).length ∧
    nobs modelVars2 (regData raw) = (regData raw).length ∧
    nobs modelVars3 (regData raw) = (regData raw).length ∧
    ∀ i, i < (prepare raw).length →
      colNA ((prepare raw).getD i default) RegCol.lag2 = true →
      (prepare raw).getD i default ∉ regData raw := by
  have key : ∀ vars : List RegCol, (∀ v ∈ vars, v ∈ regVars) →
      nobs vars (regData raw) = (regData raw).length := by
    intro vars hsub
    unfold nobs
    have hfix : (regData raw).filter
        (fun c => vars.all fun v => !(colNA c v)) = regData raw := by
      rw [List.filter_eq_self]
      intro c hc
      rw [List.all_eq_true]
      intro v hv
      simp [regData_no_na raw c hc v (hsub v hv)]
    rw [hfix]
  refine ⟨key _ (by decide), key _ (by decide), key _ (by decide), ?_⟩
  intro i hi hna hmem
  have hfalse := regData_no_na raw _ hmem RegCol.lag2 (by decide)
  rw [hna] at hfalse
  cases hfalse

/-- Witness for C10 at the three-period panel whose second row is missing
only AFFECTED_RATIO_lag2. -/
theorem global_filter_single_sample_witness :
    (1 < (prepare threeYearPanel).length ∧
      colNA ((prepare threeYearPanel).getD 1 default) RegCol.lag2 = true) ∧
    nobs modelVars1 (regData threeYearPanel) = (regData threeYearPanel).length ∧
    (prepare threeYearPanel).getD 1 default ∉ regData threeYearPanel := by
  have h1 : 1 < (prepare threeYearPanel).length := by decide
  have h2 : colNA ((prepare threeYearPanel).getD 1 default) RegCol.lag2 = true := by
    decide
  obtain ⟨k1, _, _, k4⟩ := global_filter_single_sample threeYearPanel
  exact ⟨⟨h1, h2⟩, k1, k4 1 h1 h2⟩

/-- Every row of the prepared preliminary_analysis table already satisfies
the interaction-column identity of line 137. -/
theorem dfPrelim_interaction (raw : List GRow) :
    ∀ r ∈ dfPrelim raw, r.interaction = FVal.fmul r.lag1 r.base.geo := by
  intro r hr
  unfold dfPrelim dfPrelimSorted at hr
  obtain ⟨i, _, rfl⟩ := List.mem_map.mp hr
  rfl

/-- C9: once the prepared panel is built, the table each specification of the
preliminary_analysis batch reads is identical to the table the first one
read. The fits themselves are pure reads, and the one column assignment
between fits (line 225) rewrites the interaction column with the values it
already holds, so the table's contents never change across the batch. -/
theorem tables_across_batch_unchanged (raw : List GRow) :
    tableForModel2 raw = tableForModel1 raw ∧
    tableForModel3 raw = tableForModel1 raw ∧
    tableForModel4 raw = tableForModel1 raw := by
  have h3 : tableForModel3 raw = tableForModel1 raw := by
    unfold tableForModel3 tableForModel2 tableForModel1 setInteraction
    have hrw : ∀ r ∈ dfReg raw,
        ({ r with interaction := FVal.fmul r.lag1 r.base.geo } : HRow) = r := by
      intro r hr
      have hinv := dfPrelim_interaction raw r (List.mem_of_mem_filter hr)
      cases r with
      | mk base lag1 inter => simp_all
    calc (dfReg raw).map (fun r => { r with interaction := FVal.fmul r.lag1 r.base.geo })
        = (dfReg raw).map id := List.map_congr_left hrw
      _ = dfReg raw := List.map_id _
  exact ⟨rfl, h3, h3⟩

/-- C8: the end-to-end scenario of spec §8 on the fix_data pipeline. With
entities A=1 and B=2 over periods 1-3, exposure [0, 1/2, 1] and [1/5, 1/5, 1/5],
total assets [100, 110, 120] and [50, 55, 60], net income [10, 11, 12] and
[5, 5, 5]: the lagged total assets for A at period 2 equal 100 and at period 3
equal 110; ROA for A at period 2 equals 11/100; and the pooled OLS of ROA on
the lagged exposure runs on exactly the 4 rows with non-missing lags,
returning the finite slope 7/1870, a finite squared standard error 223/238425,
and N = 4. -/
theorem end_to_end_scenario :
    ((prepareFix scenarioPanel).getD 1 default).atLag1 = FVal.num 100 ∧
    ((prepareFix scenarioPanel).getD 2 default).atLag1 = FVal.num 110 ∧
    ((prepareFix scenarioPanel).getD 1 default).roa = FVal.num (11 / 100) ∧
    (regDataFix scenarioPanel).length = 4 ∧
    olsSimple (regPoints (regDataFix scenarioPanel)) =
      some ⟨7 / 1870, 1901 / 18700, 223 / 238425, 4⟩ := by
  refine ⟨?_, ?_, ?_, ?_, ?_⟩ <;>
  norm_num +decide [olsSimple, regPoints, regDataFix, prepareFix, prepareFixSorted,
    scenarioPanel, sortPanel, List.insertionSort, List.orderedInsert, keyLe, MRow.key,
    groupShift, shiftList, List.enum, List.enumFrom, FVal.fdiv, FVal.isna, logNAfix,
    List.range, List.range.loop, List.filterMap_cons]

/-- Justification of the `LogCell.ln` representation: the natural log is
injective on positive rational arguments, so a finite log cell is determined
by (and determines) its argument. -/
theorem logCell_faithful (a b : ℚ) (ha : 0 < a) (hb : 0 < b) :
    Real.log a = Real.log b ↔ (a : ℝ) = b := by
  constructor
  · intro h
    rw [← Real.exp_log (show (0 : ℝ) < (a : ℝ) by exact_mod_cast ha), h,
      Real.exp_log (show (0 : ℝ) < (b : ℝ) by exact_mod_cast hb)]
  · intro h
    rw [h]

/-- Counterexample to C5 as stated: in fix_data_and_run_analysis,
LOG_ASSETS at total_assets = 0 is the finite number ln 1 (= 0), not a
missing value as the claim requires for non-positive assets; and at
total_assets = 100 it is ln 101, which differs from ln 100 = ln(total_assets).
CORRECTED_ANALYSIS, by contrast, does produce NaN at zero assets. -/
theorem log_assets_plus_one_cex :
    logAssetsFix (FVal.num 0) = LogCell.ln 1 ∧
    LogCell.ln 1 ≠ LogCell.nan ∧
    logAssetsFix (FVal.num 100) = LogCell.ln 101 ∧
    Real.log ((101 : ℚ) : ℝ) ≠ Real.log ((100 : ℚ) : ℝ) ∧
    logAssetsCorrected (FVal.num 0) = LogCell.nan := by
  refine ⟨?_, by simp, ?_, ?_, ?_⟩
  · norm_num [logAssetsFix, npLogCell, FVal.fadd]
  · norm_num [logAssetsFix, npLogCell, FVal.fadd]
  · push_cast
    exact (Real.log_lt_log (by norm_num) (by norm_num)).ne'
  · norm_num [logAssetsCorrected, replaceZeroNan, npLogCell]

/-- C5 amended: CORRECTED_ANALYSIS computes LOG_ASSETS = ln(total_assets),
missing (NaN) for non-positive or missing assets and never raising, exactly
as the claim states; but fix_data_and_run_analysis computes
LOG_ASSETS = ln(total_assets + 1): a finite number whenever
total_assets > -1 (including zero and small negative assets), -inf at -1,
and NaN only below -1 or for missing assets. -/
theorem log_assets_two_definitions (q : ℚ) :
    (0 < q → logAssetsCorrected (FVal.num q) = LogCell.ln q) ∧
    (q ≤ 0 → logAssetsCorrected (FVal.num q) = LogCell.nan) ∧
    logAssetsCorrected FVal.nan = LogCell.nan ∧
    (-1 < q → logAssetsFix (FVal.num q) = LogCell.ln (q + 1)) ∧
    (q = -1 → logAssetsFix (FVal.num q) = LogCell.ninf) ∧
    (q < -1 → logAssetsFix (FVal.num q) = LogCell.nan) ∧
    logAssetsFix FVal.nan = LogCell.nan := by
  refine ⟨fun h => ?_, fun h => ?_, rfl, fun h => ?_, fun h => ?_, fun h => ?_, rfl⟩
  · simp [logAssetsCorrected, replaceZeroNan, npLogCell, h, h.ne']
  · rcases h.lt_or_eq with h' | h'
    · simp [logAssetsCorrected, replaceZeroNan, npLogCell, h'.ne,
        not_lt.mpr h'.le, h'.ne]
    · subst h'
      simp [logAssetsCorrected, replaceZeroNan, npLogCell]
  · have h1 : 0 < q + 1 := by linarith
    simp [logAssetsFix, FVal.fadd, npLogCell, h1]
  · subst h
    norm_num [logAssetsFix, FVal.fadd, npLogCell]
  · have h1 : q + 1 < 0 := by linarith
    simp [logAssetsFix, FVal.fadd, npLogCell, not_lt.mpr h1.le, h1.ne]

/-- Witness for the amended C5 at assets 2, 0 and -2. -/
theorem log_assets_two_definitions_witness :
    ((0 : ℚ) < 2 ∧ logAssetsCorrected (FVal.num 2) = LogCell.ln 2) ∧
    ((0 : ℚ) ≤ 0 ∧ logAssetsCorrected (FVal.num 0) = LogCell.nan) ∧
    ((-1 : ℚ) < 0 ∧ logAssetsFix (FVal.num 0) = LogCell.ln (0 + 1)) ∧
    ((-2 : ℚ) < -1 ∧ logAssetsFix (FVal.num (-2)) = LogCell.nan) :=
  ⟨⟨by norm_num, (log_assets_two_definitions 2).1 (by norm_num)⟩,
   ⟨le_refl 0, (log_assets_two_definitions 0).2.1 (le_refl 0)⟩,
   ⟨by norm_num, (log_assets_two_definitions 0).2.2.2.1 (by norm_num)⟩,
   ⟨by norm_num, (log_assets_two_definitions (-2)).2.2.2.2.2.1 (by norm_num)⟩⟩

theorem qInv_of_det_eq_zero {k : Type} [Fintype k] [DecidableEq k]
    (A : Matrix k k ℚ) (h : A.det = 0) : qInv A = 0 := by
  simp [qInv, h]

theorem olsBeta_degenerate {n k : Type} [Fintype n] [DecidableEq n]
    [Fintype k] [DecidableEq k] (X : Matrix n k ℚ) (y : n → ℚ)
    (h : (Xᵀ * X).det = 0) : olsBeta X y = 0 := by
  unfold olsBeta
  rw [qInv_of_det_eq_zero _ h, Matrix.zero_mulVec]

theorem Xsing_normal_det : (Xsingᵀ * Xsing).det = 0 := by
  have h : Xsingᵀ * Xsing = !![14, 14; 14, 14] := by
    ext i j
    fin_cases i <;> fin_cases j <;>
      norm_num [Xsing, Matrix.mul_apply, Fin.sum_univ_three, Matrix.transpose_apply,
        Matrix.vecHead, Matrix.vecTail]
  rw [h, Matrix.det_fin_two]
  norm_num

/-- Counterexample to C3 as stated: `Xsing` duplicates its regressor, so its
normal matrix is singular, yet the model-4 fit (called with the rank check
disabled, as in the source) returns ok with the degenerate coefficients
instead of signalling RankDeficiencyError, and a batch containing the
deficient specification yields a numeric comparison row, not a failure
marker. -/
theorem rank_deficiency_not_signalled_cex :
    (Xsingᵀ * Xsing).det = 0 ∧
    model4Fit Xsing ysing ≠ Except.error FitError.rankDeficiency ∧
    model4Fit Xsing ysing = Except.ok (olsBeta Xsing ysing) ∧
    fixBatch [⟨2, Xsing⟩] ysing = [CompRow.fitted [0, 0]] := by
  refine ⟨Xsing_normal_det, ?_, ?_, ?_⟩
  · simp [model4Fit, panelFit]
  · simp [model4Fit, panelFit]
  · simp only [fixBatch, List.map_cons, List.map_nil]
    rw [olsBeta_degenerate _ _ Xsing_normal_det]
    simp [List.ofFn_succ]

/-- C3 amended: rank deficiency is never signalled. The source disables the
library's rank check (check_rank=False), so the fit returns coefficients for
every design — a singular normal matrix silently producing the degenerate
zero coefficient vector — and the fix_data batch runs all its specifications
unconditionally, its comparison table containing one numeric row per
specification and never a failure marker row. -/
theorem rank_deficiency_silent {n k : Type} [Fintype n] [DecidableEq n]
    [Fintype k] [DecidableEq k] (X : Matrix n k ℚ) (y : n → ℚ)
    (h : (Xᵀ * X).det = 0) {m : ℕ}
    (designs : List ((q : ℕ) × Matrix (Fin m) (Fin q) ℚ)) (ym : Fin m → ℚ) :
    model4Fit X y = Except.ok (olsBeta X y) ∧
    olsBeta X y = 0 ∧
    ∀ r ∈ fixBatch designs ym, ∃ cs, r = CompRow.fitted cs := by
  refine ⟨by simp [model4Fit, panelFit], olsBeta_degenerate X y h, ?_⟩
  intro r hr
  obtain ⟨s, _, rfl⟩ := List.mem_map.mp hr
  exact ⟨_, rfl⟩

/-- Witness for the amended C3 at the concrete rank-deficient design. -/
theorem rank_deficiency_silent_witness :
    (Xsingᵀ * Xsing).det = 0 ∧
    model4Fit Xsing ysing = Except.ok (olsBeta Xsing ysing) ∧
    olsBeta Xsing ysing = 0 ∧
    ∀ r ∈ fixBatch [⟨2, Xsing⟩] ysing, ∃ cs, r = CompRow.fitted cs := by
  have h := rank_deficiency_silent Xsing ysing Xsing_normal_det [⟨2, Xsing⟩] ysing
  exact ⟨Xsing_normal_det, h.1, h.2.1, h.2.2⟩

theorem X7_normal : X7ᵀ * X7 = !![4, 0; 0, 4] := by
  ext i j
  fin_cases i <;> fin_cases j <;>
    norm_num [X7, Matrix.mul_apply, Fin.sum_univ_four, Matrix.transpose_apply,
      Matrix.vecHead, Matrix.vecTail]

theorem qInv_X7_normal : qInv (X7ᵀ * X7) = !![1/4, 0; 0, 1/4] := by
  rw [X7_normal]
  ext i j
  fin_cases i <;> fin_cases j <;>
    norm_num [qInv, Matrix.det_fin_two, Matrix.adjugate_fin_two]

theorem olsResid_X7 : olsResid X7 y7 = y7 := by
  have hXy : X7ᵀ *ᵥ y7 = 0 := by
    funext i
    fin_cases i <;>
      norm_num [X7, y7, Matrix.mulVec, Matrix.dotProduct, Fin.sum_univ_four,
        Matrix.transpose_apply, Matrix.vecHead, Matrix.vecTail]
  have hbeta : olsBeta X7 y7 = 0 := by
    unfold olsBeta
    rw [hXy, Matrix.mulVec_zero]
  unfold olsResid
  rw [hbeta, Matrix.mulVec_zero, sub_zero]

theorem resid_const_within_entity :
    ∀ i j : Fin 4, ent7 i = ent7 j → olsResid X7 y7 i = olsResid X7 y7 j := by
  intro i j h
  rw [olsResid_X7]
  fin_cases i <;> fin_cases j <;> simp_all [ent7, y7]

theorem clusterCov_X7_slope : clusterCov X7 y7 ent7 1 1 = 0 := by
  have hmeat : clusterMeat X7 (olsResid X7 y7) ent7 = !![8, 0; 0, 0] := by
    rw [olsResid_X7]
    ext i j
    fin_cases i <;> fin_cases j <;>
      norm_num [clusterMeat, clusterScore, Matrix.vecMulVec, Fin.sum_univ_two,
        Fin.sum_univ_four, X7, y7, ent7, Matrix.sum_apply]
  unfold clusterCov
  rw [hmeat, qInv_X7_normal]
  simp [Matrix.mul_apply, Fin.sum_univ_two]

theorem plainCov_X7_slope : plainCov X7 y7 1 1 = 1 / 2 := by
  unfold plainCov
  rw [olsResid_X7, qInv_X7_normal]
  simp [Fin.sum_univ_four, y7, Fintype.card_fin]
  norm_num

/-- Counterexample to C7 as stated: on the panel `X7`/`y7`/`ent7` the
residuals are perfectly correlated (constant) within each entity and not
zero, yet the clustered-by-entity variance of the slope coefficient is 0,
strictly below the plain OLS variance 1/2 — the within-entity sums of the
slope regressor's scores cancel, so clustering deflates rather than
inflates. -/
theorem cluster_se_not_inflated_cex :
    (∀ i j : Fin 4, ent7 i = ent7 j → olsResid X7 y7 i = olsResid X7 y7 j) ∧
    olsResid X7 y7 0 ≠ 0 ∧
    clusterCov X7 y7 ent7 1 1 < plainCov X7 y7 1 1 := by
  refine ⟨resid_const_within_entity, ?_, ?_⟩
  · rw [olsResid_X7]
    norm_num [y7]
  · rw [clusterCov_X7_slope, plainCov_X7_slope]
    norm_num

/-- C7 amended: perfect within-entity residual correlation does not force
clustered standard errors above plain ones. There is a panel with nonzero
residuals constant within every entity on which the clustered-by-entity
variance of a coefficient is strictly smaller than the plain OLS variance
(here it is zero), so no strict inflation holds in general; clustering
typically inflates, but only when the entity-grouped score sums do not
cancel. -/
theorem cluster_se_can_deflate :
    ∃ (X : Matrix (Fin 4) (Fin 2) ℚ) (y : Fin 4 → ℚ) (ent : Fin 4 → Fin 2),
      (∀ i j, ent i = ent j → olsResid X y i = olsResid X y j) ∧
      (∃ i, olsResid X y i ≠ 0) ∧
      clusterCov X y ent 1 1 < plainCov X y 1 1 := by
  refine ⟨X7, y7, ent7, resid_const_within_entity, ⟨0, ?_⟩, ?_⟩
  · rw [olsResid_X7]
    norm_num [y7]
  · rw [clusterCov_X7_slope, plainCov_X7_slope]
    norm_num

section FWL

variable {n g p : Type}
variable [Fintype n] [Fintype g] [DecidableEq g]

theorem qInv_mul_self {k : Type} [Fintype k] [DecidableEq k]
    (A : Matrix k k ℚ) (h : A.det ≠ 0) : qInv A * A = 1 := by
  unfold qInv
  rw [Matrix.smul_mul, Matrix.adjugate_mul, smul_smul, inv_mul_cancel₀ h, one_smul]

theorem mul_qInv_self {k : Type} [Fintype k] [DecidableEq k]
    (A : Matrix k k ℚ) (h : A.det ≠ 0) : A * qInv A = 1 := by
  unfold qInv
  rw [Matrix.mul_smul, Matrix.mul_adjugate, smul_smul, inv_mul_cancel₀ h, one_smul]

theorem qInv_transpose {k : Type} [Fintype k] [DecidableEq k]
    (A : Matrix k k ℚ) : (qInv A)ᵀ = qInv Aᵀ := by
  unfold qInv
  rw [Matrix.transpose_smul, Matrix.adjugate_transpose, Matrix.det_transpose]

theorem qInv_symm {k : Type} [Fintype k] [DecidableEq k]
    (A : Matrix k k ℚ) (h : Aᵀ = A) : (qInv A)ᵀ = qInv A := by
  rw [qInv_transpose, h]

theorem normal_transpose {k : Type} [Fintype k]
    (X : Matrix n k ℚ) : (Xᵀ * X)ᵀ = Xᵀ * X := by
  rw [Matrix.transpose_mul, Matrix.transpose_transpose]

theorem annih_transpose [DecidableEq n] (D : Matrix n g ℚ) : (annih D)ᵀ = annih D := by
  unfold annih
  rw [Matrix.transpose_sub, Matrix.transpose_one, Matrix.transpose_mul,
    Matrix.transpose_mul, Matrix.transpose_transpose, qInv_transpose,
    normal_transpose, Matrix.mul_assoc]

theorem annih_mul_self_right [DecidableEq n] (D : Matrix n g ℚ) (hD : (Dᵀ * D).det ≠ 0) :
    annih D * D = 0 := by
  unfold annih
  rw [Matrix.sub_mul, Matrix.one_mul, Matrix.mul_assoc (D * qInv (Dᵀ * D)) Dᵀ D,
    Matrix.mul_assoc D (qInv (Dᵀ * D)) (Dᵀ * D), qInv_mul_self _ hD,
    Matrix.mul_one, sub_self]

theorem annih_idem [DecidableEq n] (D : Matrix n g ℚ) (hD : (Dᵀ * D).det ≠ 0) :
    annih D * annih D = annih D := by
  nth_rewrite 2 [show annih D = 1 - D * qInv (Dᵀ * D) * Dᵀ from rfl]
  rw [Matrix.mul_sub, Matrix.mul_one, ← Matrix.mul_assoc, ← Matrix.mul_assoc,
    annih_mul_self_right D hD, Matrix.zero_mul, Matrix.zero_mul, sub_zero]

theorem demeaned_transpose [DecidableEq n] (D : Matrix n g ℚ) (F : Matrix n p ℚ) :
    (annih D * F)ᵀ = Fᵀ * annih D := by
  rw [Matrix.transpose_mul, annih_transpose]

theorem demeaned_normal [DecidableEq n] (D : Matrix n g ℚ) (F : Matrix n p ℚ)
    (hD : (Dᵀ * D).det ≠ 0) :
    (annih D * F)ᵀ * (annih D * F) = Fᵀ * annih D * F := by
  rw [demeaned_transpose, Matrix.mul_assoc (Fᵀ) (annih D) (annih D * F),
    ← Matrix.mul_assoc (annih D) (annih D) F, annih_idem D hD, Matrix.mul_assoc]

theorem demeaned_transpose_mul_annih [DecidableEq n] (D : Matrix n g ℚ) (F : Matrix n p ℚ)
    (hD : (Dᵀ * D).det ≠ 0) :
    (annih D * F)ᵀ * annih D = (annih D * F)ᵀ := by
  rw [demeaned_transpose, Matrix.mul_assoc, annih_idem D hD]

/-- The Frisch-Waugh-Lovell functional identity: for every response vector,
the substantive (non-dummy) block of the partitioned design's OLS coefficient
functional equals the demeaned design's coefficient functional at the same
vector. -/
theorem olsBeta_inr_functional [DecidableEq n] [Fintype p] [DecidableEq p]
    (D : Matrix n g ℚ) (F : Matrix n p ℚ)
    (hD : (Dᵀ * D).det ≠ 0)
    (hX : ((Matrix.fromColumns D F)ᵀ * Matrix.fromColumns D F).det ≠ 0)
    (hS : ((annih D * F)ᵀ * (annih D * F)).det ≠ 0)
    (v : n → ℚ) (j : p) :
    olsBeta (Matrix.fromColumns D F) v (Sum.inr j) =
      (qInv ((annih D * F)ᵀ * (annih D * F)) *ᵥ ((annih D * F)ᵀ *ᵥ v)) j := by
  set X := Matrix.fromColumns D F with hXdef
  set M := annih D with hMdef
  set γ : g → ℚ := fun a => olsBeta X v (Sum.inl a) with hγ
  set b : p → ℚ := fun j' => olsBeta X v (Sum.inr j') with hb
  have helim : olsBeta X v = Sum.elim γ b := by
    funext s
    cases s <;> rfl
  have hnormal : (Xᵀ * X) *ᵥ olsBeta X v = Xᵀ *ᵥ v := by
    unfold olsBeta
    rw [Matrix.mulVec_mulVec, mul_qInv_self _ hX, Matrix.one_mulVec]
  have hXβ : X *ᵥ olsBeta X v = D *ᵥ γ + F *ᵥ b := by
    rw [helim, hXdef, Matrix.fromColumns_mulVec_sum_elim]
  have hresid0 : Xᵀ *ᵥ (v - X *ᵥ olsBeta X v) = 0 := by
    rw [Matrix.mulVec_sub, Matrix.mulVec_mulVec, hnormal, sub_self]
  have hsplit : Sum.elim (Dᵀ *ᵥ (v - X *ᵥ olsBeta X v))
      (Fᵀ *ᵥ (v - X *ᵥ olsBeta X v)) = 0 := by
    rw [← Matrix.fromRows_mulVec, ← Matrix.transpose_fromColumns, ← hXdef,
      hresid0]
  have htop : Dᵀ *ᵥ (v - X *ᵥ olsBeta X v) = 0 := by
    funext a
    exact congrFun hsplit (Sum.inl a)
  have hbot : Fᵀ *ᵥ (v - X *ᵥ olsBeta X v) = 0 := by
    funext j'
    exact congrFun hsplit (Sum.inr j')
  have hDtD : (Dᵀ * D) *ᵥ γ = Dᵀ *ᵥ (v - F *ᵥ b) := by
    have h1 : Dᵀ *ᵥ v - (Dᵀ *ᵥ (D *ᵥ γ) + Dᵀ *ᵥ (F *ᵥ b)) = 0 := by
      rw [← Matrix.mulVec_add, ← hXβ, ← Matrix.mulVec_sub]
      exact htop
    have h2 : Dᵀ *ᵥ v = Dᵀ *ᵥ (D *ᵥ γ) + Dᵀ *ᵥ (F *ᵥ b) := by
      have := sub_eq_zero.mp h1
      exact this
    calc (Dᵀ * D) *ᵥ γ = Dᵀ *ᵥ (D *ᵥ γ) := (Matrix.mulVec_mulVec _ _ _).symm
      _ = Dᵀ *ᵥ v - Dᵀ *ᵥ (F *ᵥ b) := by rw [h2]; abel
      _ = Dᵀ *ᵥ (v - F *ᵥ b) := (Matrix.mulVec_sub _ _ _).symm
  have hγval : γ = qInv (Dᵀ * D) *ᵥ (Dᵀ *ᵥ (v - F *ᵥ b)) := by
    rw [← hDtD, Matrix.mulVec_mulVec, qInv_mul_self _ hD, Matrix.one_mulVec]
  have hvres : v - X *ᵥ olsBeta X v = M *ᵥ (v - F *ᵥ b) := by
    have hDγ : D *ᵥ γ = (D * qInv (Dᵀ * D) * Dᵀ) *ᵥ (v - F *ᵥ b) := by
      rw [hγval, Matrix.mulVec_mulVec, Matrix.mulVec_mulVec, Matrix.mul_assoc]
    rw [hXβ, hDγ, hMdef]
    unfold annih
    rw [Matrix.sub_mulVec, Matrix.one_mulVec]
    abel
  have hbot2 : ((M * F)ᵀ * (M * F)) *ᵥ b = (M * F)ᵀ *ᵥ v := by
    have h2 : Fᵀ *ᵥ (M *ᵥ (v - F *ᵥ b)) = 0 := by
      rw [← hvres]
      exact hbot
    have h4 : (M * F)ᵀ *ᵥ (v - F *ᵥ b) = 0 := by
      rw [hMdef, demeaned_transpose, ← Matrix.mulVec_mulVec]
      exact h2
    rw [Matrix.mulVec_sub] at h4
    have h6 : (M * F)ᵀ *ᵥ v = (M * F)ᵀ *ᵥ (F *ᵥ b) := sub_eq_zero.mp h4
    have h7 : (M * F)ᵀ * F = (M * F)ᵀ * (M * F) := by
      rw [hMdef, demeaned_normal D F hD, demeaned_transpose, Matrix.mul_assoc]
    rw [Matrix.mulVec_mulVec, h7] at h6
    exact h6.symm
  have hbval : b = qInv ((M * F)ᵀ * (M * F)) *ᵥ ((M * F)ᵀ *ᵥ v) := by
    rw [← hbot2, Matrix.mulVec_mulVec, qInv_mul_self _ hS, Matrix.one_mulVec]
  exact congrFun hbval j

/-- The dummy-variable fit and the demeaned fit have identical residuals. -/
theorem olsResid_demean_eq [DecidableEq n] [Fintype p] [DecidableEq p]
    (D : Matrix n g ℚ) (F : Matrix n p ℚ)
    (hD : (Dᵀ * D).det ≠ 0)
    (hX : ((Matrix.fromColumns D F)ᵀ * Matrix.fromColumns D F).det ≠ 0)
    (hS : ((annih D * F)ᵀ * (annih D * F)).det ≠ 0)
    (y : n → ℚ) :
    olsResid (Matrix.fromColumns D F) y =
      olsResid (annih D * F) (annih D *ᵥ y) := by
  set X := Matrix.fromColumns D F with hXdef
  set M := annih D with hMdef
  set γ : g → ℚ := fun a => olsBeta X y (Sum.inl a) with hγ
  set b : p → ℚ := fun j' => olsBeta X y (Sum.inr j') with hb
  have helim : olsBeta X y = Sum.elim γ b := by
    funext s
    cases s <;> rfl
  have hnormal : (Xᵀ * X) *ᵥ olsBeta X y = Xᵀ *ᵥ y := by
    unfold olsBeta
    rw [Matrix.mulVec_mulVec, mul_qInv_self _ hX, Matrix.one_mulVec]
  have hXβ : X *ᵥ olsBeta X y = D *ᵥ γ + F *ᵥ b := by
    rw [helim, hXdef, Matrix.fromColumns_mulVec_sum_elim]
  have hresid0 : Xᵀ *ᵥ (y - X *ᵥ olsBeta X y) = 0 := by
    rw [Matrix.mulVec_sub, Matrix.mulVec_mulVec, hnormal, sub_self]
  have hsplit : Sum.elim (Dᵀ *ᵥ (y - X *ᵥ olsBeta X y))
      (Fᵀ *ᵥ (y - X *ᵥ olsBeta X y)) = 0 := by
    rw [← Matrix.fromRows_mulVec, ← Matrix.transpose_fromColumns, ← hXdef,
      hresid0]
  have htop : Dᵀ *ᵥ (y - X *ᵥ olsBeta X y) = 0 := by
    funext a
    exact congrFun hsplit (Sum.inl a)
  -- the annihilator fixes the residual
  have hMfix : M *ᵥ (y - X *ᵥ olsBeta X y) = y - X *ᵥ olsBeta X y := by
    rw [hMdef]
    unfold annih
    rw [Matrix.sub_mulVec, Matrix.one_mulVec, Matrix.mul_assoc,
      ← Matrix.mulVec_mulVec, ← Matrix.mulVec_mulVec, htop, Matrix.mulVec_zero,
      Matrix.mulVec_zero, sub_zero]
  -- applying M to the residual decomposition kills the dummy block
  have hMD : M * D = 0 := annih_mul_self_right D hD
  have hured : y - X *ᵥ olsBeta X y = M *ᵥ y - (M * F) *ᵥ b := by
    calc y - X *ᵥ olsBeta X y = M *ᵥ (y - X *ᵥ olsBeta X y) := hMfix.symm
      _ = M *ᵥ y - (M *ᵥ (D *ᵥ γ) + M *ᵥ (F *ᵥ b)) := by
          rw [Matrix.mulVec_sub, hXβ, Matrix.mulVec_add]
      _ = M *ᵥ y - (0 + (M * F) *ᵥ b) := by
          rw [Matrix.mulVec_mulVec, Matrix.mulVec_mulVec, hMD,
            Matrix.zero_mulVec]
      _ = M *ᵥ y - (M * F) *ᵥ b := by rw [zero_add]
  -- the demeaned fit's coefficients coincide with the substantive block
  have hbeq : olsBeta (M * F) (M *ᵥ y) = b := by
    funext j'
    have h1 := olsBeta_inr_functional D F hD hX hS y j'
    have h2 : (M * F)ᵀ *ᵥ (M *ᵥ y) = (M * F)ᵀ *ᵥ y := by
      rw [Matrix.mulVec_mulVec, hMdef, demeaned_transpose_mul_annih D F hD]
    unfold olsBeta
    rw [h2]
    exact h1.symm
  unfold olsResid
  rw [hbeq, ← hured]

omit [Fintype g] in
/-- A cluster's grouped score is the design transpose applied to the
residuals restricted to that cluster. -/
theorem clusterScore_eq_mulVec {k : Type} [Fintype k]
    (X : Matrix n k ℚ) (u : n → ℚ) (ent : n → g) (c : g) :
    clusterScore X u ent c = Xᵀ *ᵥ maskVec ent c u := by
  funext j
  simp [clusterScore, maskVec, Matrix.mulVec, Matrix.dotProduct, mul_ite,
    mul_zero]

/-- Entry of a symmetric-bread sandwich with a rank-one meat. -/
theorem sandwich_entry {k : Type} [Fintype k] (W : Matrix k k ℚ)
    (hW : Wᵀ = W) (s : k → ℚ) (a b : k) :
    (W * Matrix.vecMulVec s s * W) a b = (W *ᵥ s) a * (W *ᵥ s) b := by
  have hWba : ∀ e, W e b = W b e := by
    intro e
    conv_lhs => rw [← hW]
    exact Matrix.transpose_apply W e b
  simp only [Matrix.mul_apply, Matrix.vecMulVec_apply, Matrix.mulVec,
    Matrix.dotProduct]
  calc ∑ e, (∑ d, W a d * (s d * s e)) * W e b
      = ∑ e, ∑ d, W a d * (s d * s e) * W e b := by
        refine Finset.sum_congr rfl fun e _ => ?_
        rw [Finset.sum_mul]
    _ = ∑ d, ∑ e, W a d * (s d * s e) * W e b := Finset.sum_comm
    _ = ∑ d, ∑ e, (W a d * s d) * (W b e * s e) := by
        refine Finset.sum_congr rfl fun d _ => Finset.sum_congr rfl fun e _ => ?_
        rw [hWba e]
        ring
    _ = (∑ d, W a d * s d) * (∑ e, W b e * s e) := (Finset.sum_mul_sum _ _ _ _).symm

/-- The clustered covariance entry as a sum of products of transformed
cluster scores. -/
theorem clusterCov_entry {k : Type} [Fintype k] [DecidableEq k]
    (X : Matrix n k ℚ) (y : n → ℚ) (ent : n → g) (a b : k) :
    clusterCov X y ent a b =
      ∑ c, (qInv (Xᵀ * X) *ᵥ clusterScore X (olsResid X y) ent c) a *
        (qInv (Xᵀ * X) *ᵥ clusterScore X (olsResid X y) ent c) b := by
  unfold clusterCov clusterMeat
  rw [Matrix.mul_sum, Matrix.sum_mul, Matrix.sum_apply]
  exact Finset.sum_congr rfl fun c _ =>
    sandwich_entry _ (qInv_symm _ (normal_transpose X)) _ a b

/-- C6: on every panel where both strategies are feasible (all three normal
matrices invertible), fitting entity fixed effects by explicit dummy columns
and by within-entity demeaning produces, for every substantive (non-fixed-
effect) regressor, exactly the same coefficient and exactly the same
clustered-by-entity covariance entries — in particular the same clustered
standard errors, so agreement holds a fortiori to any 1e-6 tolerance. Only
the fixed-effect intercept block, absent from the demeaned fit, can differ. -/
theorem fe_dummy_demean_equivalent [DecidableEq n] [Fintype p] [DecidableEq p]
    (ent : n → g) (F : Matrix n p ℚ) (y : n → ℚ)
    (hD : ((dummyMat ent)ᵀ * dummyMat ent).det ≠ 0)
    (hX : ((feX ent F)ᵀ * feX ent F).det ≠ 0)
    (hS : ((withinM ent * F)ᵀ * (withinM ent * F)).det ≠ 0) :
    (∀ j, dummyCoef ent F y j = demeanCoef ent F y j) ∧
    (∀ j j', clusterCov (feX ent F) y ent (Sum.inr j) (Sum.inr j') =
      clusterCov (withinM ent * F) (withinM ent *ᵥ y) ent j j') := by
  have hX' : ((Matrix.fromColumns (dummyMat ent) F)ᵀ *
      Matrix.fromColumns (dummyMat ent) F).det ≠ 0 := hX
  have hS' : ((annih (dummyMat ent) * F)ᵀ * (annih (dummyMat ent) * F)).det ≠ 0 := hS
  constructor
  · intro j
    show olsBeta (Matrix.fromColumns (dummyMat ent) F) y (Sum.inr j) =
      olsBeta (annih (dummyMat ent) * F) (annih (dummyMat ent) *ᵥ y) j
    rw [olsBeta_inr_functional (dummyMat ent) F hD hX' hS' y j]
    have h2 : (annih (dummyMat ent) * F)ᵀ *ᵥ (annih (dummyMat ent) *ᵥ y) =
        (annih (dummyMat ent) * F)ᵀ *ᵥ y := by
      rw [Matrix.mulVec_mulVec, demeaned_transpose_mul_annih (dummyMat ent) F hD]
    unfold olsBeta
    rw [h2]
  · intro j j'
    have hresid := olsResid_demean_eq (dummyMat ent) F hD hX' hS' y
    show clusterCov (Matrix.fromColumns (dummyMat ent) F) y ent (Sum.inr j) (Sum.inr j') =
      clusterCov (annih (dummyMat ent) * F) (annih (dummyMat ent) *ᵥ y) ent j j'
    rw [clusterCov_entry, clusterCov_entry]
    refine Finset.sum_congr rfl fun c _ => ?_
    have hfac : ∀ a : p,
        (qInv ((Matrix.fromColumns (dummyMat ent) F)ᵀ * Matrix.fromColumns (dummyMat ent) F) *ᵥ
          clusterScore (Matrix.fromColumns (dummyMat ent) F)
            (olsResid (Matrix.fromColumns (dummyMat ent) F) y) ent c) (Sum.inr a) =
        (qInv ((annih (dummyMat ent) * F)ᵀ * (annih (dummyMat ent) * F)) *ᵥ
          clusterScore (annih (dummyMat ent) * F)
            (olsResid (annih (dummyMat ent) * F) (annih (dummyMat ent) *ᵥ y)) ent c) a := by
      intro a
      rw [clusterScore_eq_mulVec, clusterScore_eq_mulVec, ← hresid]
      exact olsBeta_inr_functional (dummyMat ent) F hD hX' hS'
        (maskVec ent c (olsResid (Matrix.fromColumns (dummyMat ent) F) y)) a
    rw [hfac j, hfac j']

end FWL

theorem entW_dummy_normal :
    (dummyMat entW)ᵀ * dummyMat entW = !![2, 0; 0, 2] := by
  ext i j
  fin_cases i <;> fin_cases j <;>
    norm_num [dummyMat, entW, Matrix.mul_apply, Fin.sum_univ_four,
      Matrix.transpose_apply]

theorem entW_dummy_det : ((dummyMat entW)ᵀ * dummyMat entW).det ≠ 0 := by
  rw [entW_dummy_normal, Matrix.det_fin_two]
  norm_num

theorem entW_dummy_qInv :
    qInv ((dummyMat entW)ᵀ * dummyMat entW) = !![1/2, 0; 0, 1/2] := by
  rw [entW_dummy_normal]
  ext i j
  fin_cases i <;> fin_cases j <;>
    norm_num [qInv, Matrix.det_fin_two, Matrix.adjugate_fin_two]

theorem entW_withinM :
    withinM entW = !![1/2, -1/2, 0, 0; -1/2, 1/2, 0, 0;
      0, 0, 1/2, -1/2; 0, 0, -1/2, 1/2] := by
  rw [show withinM entW = 1 - dummyMat entW *
    qInv ((dummyMat entW)ᵀ * dummyMat entW) * (dummyMat entW)ᵀ from rfl,
    entW_dummy_qInv]
  ext i j
  fin_cases i <;> fin_cases j <;>
    norm_num [dummyMat, entW, Matrix.mul_apply, Fin.sum_univ_four,
      Fin.sum_univ_two, Matrix.transpose_apply, Matrix.one_apply, Fin.ext_iff]

theorem entW_Ft : withinM entW * FW = !![-1/2; 1/2; -1; 1] := by
  rw [entW_withinM]
  ext i j
  fin_cases i <;> fin_cases j <;>
    norm_num [FW, Matrix.mul_apply, Fin.sum_univ_four]

theorem entW_within_det :
    ((withinM entW * FW)ᵀ * (withinM entW * FW)).det ≠ 0 := by
  rw [entW_Ft]
  have h : ((!![-1/2; 1/2; -1; 1] : Matrix (Fin 4) (Fin 1) ℚ))ᵀ *
      ((!![-1/2; 1/2; -1; 1] : Matrix (Fin 4) (Fin 1) ℚ)) = !![5/2] := by
    ext i j
    fin_cases i
    fin_cases j
    norm_num [Matrix.mul_apply, Fin.sum_univ_four, Matrix.transpose_apply,
      Matrix.vecHead, Matrix.vecTail]
  rw [h, Matrix.det_fin_one]
  norm_num

theorem entW_feX_det : ((feX entW FW)ᵀ * feX entW FW).det ≠ 0 := by
  have hsub : ((feX entW FW)ᵀ * feX entW FW).submatrix sumEquiv3 sumEquiv3 =
      !![2, 0, 3; 0, 2, 8; 3, 8, 39] := by
    ext i j
    fin_cases i <;> fin_cases j <;>
      norm_num [feX, Matrix.fromColumns, dummyMat, entW, FW, Matrix.mul_apply,
        Fin.sum_univ_four, Matrix.transpose_apply, Matrix.submatrix_apply,
        sumEquiv3]
  rw [← Matrix.det_submatrix_equiv_self sumEquiv3, hsub, Matrix.det_fin_three]
  norm_num

/-- Witness for C6 on a 2-entity, 4-row panel with one substantive regressor:
all three feasibility determinants are nonzero, and the two strategies agree
on the coefficient and on the clustered covariance. -/
theorem fe_dummy_demean_equivalent_witness :
    (((dummyMat entW)ᵀ * dummyMat entW).det ≠ 0 ∧
      ((feX entW FW)ᵀ * feX entW FW).det ≠ 0 ∧
      ((withinM entW * FW)ᵀ * (withinM entW * FW)).det ≠ 0) ∧
    (∀ j, dummyCoef entW FW yW j = demeanCoef entW FW yW j) ∧
    (∀ j j', clusterCov (feX entW FW) yW entW (Sum.inr j) (Sum.inr j') =
      clusterCov (withinM entW * FW) (withinM entW *ᵥ yW) entW j j') :=
  ⟨⟨entW_dummy_det, entW_feX_det, entW_within_det⟩,
    fe_dummy_demean_equivalent entW FW yW entW_dummy_det entW_feX_det
      entW_within_det⟩

end DataSynth
